import Mathlib

/-!
Verification of the numeric conversion engine of `fib_miles2km`.

The C source (src/algorithms.c together with the algorithm section of the
unnamed source file) is shallowly embedded as follows:

* `uint64_t` values are natural numbers; every operation that can wrap takes
  an explicit `% 2 ^ 64`.  C `int` is modelled as `ℤ` (no claim exercises a
  32-bit wrap of `int`).
* `float`/`double` arithmetic is modelled as exact rational (`ℚ`) resp. real
  (`ℝ`) arithmetic; the decimal literal `1.609344f` is idealised as the
  rational `1609344 / 1000000` and `1e-5`, `DBL_EPSILON = 2^-52` likewise.
  The implicit C conversion from a floating value to `int` (truncation
  toward zero) is modelled explicitly by `ctrunc`.
* the `while` loops are embedded as fuelled recursions; a fuel of 200 is far
  beyond the at most 93 iterations any run can take, and the lemmas below
  show the fuel is never exhausted on the inputs considered.
* the transcendental path `fib_golden_ratio` (log, sqrt, pow) is embedded
  over `ℝ`; `pow(x, k)` with an `int` exponent is integer zpow.
-/

namespace FibMiles

/-- The modulus of C `uint64_t` arithmetic. -/
def u64 : ℕ := 2 ^ 64

/-- Wrapping `uint64_t` subtraction `a - b` (operands already reduced mod `2^64`). -/
def u64sub (a b : ℕ) : ℕ := (a + (u64 - b % u64)) % u64

/-- C truncation toward zero of a floating value, as performed by the implicit
float-to-int conversion at every call `basic_miles2km(miles)` whose argument
is a `float`/`double`. -/
def ctrunc (q : ℚ) : ℤ := if 0 ≤ q then ⌊q⌋ else ⌈q⌉

/-- The conversion constant written `1.609344f` in the source, idealised. -/
def mileFactor : ℚ := 1609344 / 1000000

/-- `float basic_miles2km(int miles)` from algorithms.c.
Note the parameter type: it is C `int`, not a floating type. -/
def basic_miles2km (miles : ℤ) : ℚ := miles * mileFactor

/-- A call `basic_miles2km(m)` with a floating-point argument `m`: the
argument is first truncated toward zero by the implicit conversion. -/
def basic_miles2km_f (m : ℚ) : ℚ := basic_miles2km (ctrunc m)

/-- The iteration `for (i = 2; i <= num; i++) { next = a + b; a = b; b = next; }`
of `fibonacci`, with the remaining iteration count as first argument. -/
def fibLoop : ℕ → ℕ → ℕ → ℕ
  | 0, _, b => b
  | n + 1, a, b => fibLoop n b ((a + b) % u64)

/-- `uint64_t fibonacci(int num)` from algorithms.c. -/
def fibonacci (num : ℤ) : ℕ :=
  if num < 0 then 0
  else if num = 0 then 0
  else if num = 1 then 1
  else fibLoop (num.toNat - 1) 0 1

/-- The pair `(cache[n], cache[n+1])` produced by the cache-initialisation
loop of `fib_cache_convert` (`cache[i] = cache[i-1] + cache[i-2]` in
`uint64_t` arithmetic). -/
def fibAux : ℕ → ℕ × ℕ
  | 0 => (0, 1)
  | n + 1 => ((fibAux n).2, ((fibAux n).1 + (fibAux n).2) % u64)

/-- Entry `n` of the static Fibonacci cache of `fib_cache_convert`. -/
def cacheEntry (n : ℕ) : ℕ := (fibAux n).1

/-- The fully initialised static array `cache[94]` of `fib_cache_convert`. -/
def cacheList : List ℕ := (List.range 94).map cacheEntry

/-- State of the bracket walk of `fib_interpolate`:
`(prev_mile, prev_km, curr_mile, curr_km)`. -/
structure WalkSt where
  pm : ℕ
  pk : ℕ
  cm : ℕ
  ck : ℕ

/-- The loop `while (curr_mile <= miles) { ... }` of `fib_interpolate`,
including the overflow `break`. -/
def fibWalk (m : ℚ) : ℕ → WalkSt → WalkSt
  | 0, s => s
  | fuel + 1, s =>
    if (s.cm : ℚ) ≤ m then
      let t : WalkSt := ⟨s.cm, s.ck, s.ck, (s.cm + s.ck) % u64⟩
      if t.ck < t.pk ∨ t.cm < t.pm then t else fibWalk m fuel t
    else s

/-- The initial state `prev = (0, 1)`, `curr = (1, 2)` of `fib_interpolate`. -/
def walkInit : WalkSt := ⟨0, 1, 1, 2⟩

/-- `float fib_interpolate(float miles)` from algorithms.c. -/
def fib_interpolate (m : ℚ) : ℚ :=
  if m < 5 then basic_miles2km_f m
  else
    (((fibWalk m 200 walkInit).pk : ℚ)) +
      (m - ((fibWalk m 200 walkInit).pm : ℚ)) *
        ((u64sub (fibWalk m 200 walkInit).ck (fibWalk m 200 walkInit).pk : ℚ) /
          (u64sub (fibWalk m 200 walkInit).cm (fibWalk m 200 walkInit).pm : ℚ))

/-- The search loop `while (i < MAX_CACHE-2 && cache[i] <= miles) i++;` of
`fib_cache_convert`, over an arbitrary table `c`. -/
def cacheSearchAuxIn (c : List ℕ) (m : ℚ) : ℕ → ℕ → ℕ
  | 0, i => i
  | fuel + 1, i =>
    if i < 92 ∧ ((c.getD i 0 : ℕ) : ℚ) ≤ m then cacheSearchAuxIn c m fuel (i + 1) else i

/-- The index at which the search loop of `fib_cache_convert` stops,
starting from `i = 2`. -/
def cacheSearchIn (c : List ℕ) (m : ℚ) : ℕ := cacheSearchAuxIn c m 200 2

/-- The body of `fib_cache_convert` once the table `c` is available. -/
def cacheBody (c : List ℕ) (m : ℚ) : ℚ :=
  if m < 5 then basic_miles2km_f m
  else if 92 ≤ cacheSearchIn c m then basic_miles2km_f m
  else
    ((c.getD (cacheSearchIn c m) 0 : ℕ) : ℚ) +
      (m - ((c.getD (cacheSearchIn c m - 1) 0 : ℕ) : ℚ)) *
        ((u64sub (c.getD (cacheSearchIn c m + 1) 0) (c.getD (cacheSearchIn c m) 0) : ℚ) /
          (u64sub (c.getD (cacheSearchIn c m) 0) (c.getD (cacheSearchIn c m - 1) 0) : ℚ))

/-- The search index of `fib_cache_convert` on the initialised cache. -/
def cacheSearch (m : ℚ) : ℕ := cacheSearchIn cacheList m

/-- `float fib_cache_convert(float miles)`: the value it returns on every
call (the static cache is the same on every call, see the state model). -/
def fib_cache_convert (m : ℚ) : ℚ := cacheBody cacheList m

/-- The static-variable state of `fib_cache_convert`: the `initialized`
flag and the `cache` array. -/
structure CacheSt where
  inited : Bool
  table : List ℕ

/-- The state before the first call: `initialized = 0`, `cache = {0}`. -/
def cacheSt0 : CacheSt := ⟨false, List.replicate 94 0⟩

/-- One call of `fib_cache_convert`, with its effect on the static state:
on the first call the cache is filled, afterwards it is reused unchanged. -/
def fib_cache_call (s : CacheSt) (m : ℚ) : ℚ × CacheSt :=
  if s.inited then (cacheBody s.table m, s)
  else (cacheBody cacheList m, ⟨true, cacheList⟩)

/-- The static state after a sequence of calls. -/
def runCalls (s : CacheSt) : List ℚ → CacheSt
  | [] => s
  | m :: ms => runCalls (fib_cache_call s m).2 ms

/-- The divisor `curr_mile - prev_mile` actually used by the interpolation
division of `fib_interpolate`. -/
def interpDenom (m : ℚ) : ℕ :=
  u64sub (fibWalk m 200 walkInit).cm (fibWalk m 200 walkInit).pm

/-- The divisor `cache[i] - cache[i-1]` actually used by the interpolation
division of `fib_cache_convert`. -/
def cacheDenom (m : ℚ) : ℕ :=
  u64sub (cacheList.getD (cacheSearch m) 0) (cacheList.getD (cacheSearch m - 1) 0)

/-- The walk state of `fib_interpolate` after `j ≥ 1` completed iterations
without overflow: `prev = (F(j+1), F(j+2))`, `curr = (F(j+2), F(j+3))`. -/
def stateAt (j : ℕ) : WalkSt :=
  ⟨Nat.fib (j + 1), Nat.fib (j + 2), Nat.fib (j + 2), Nat.fib (j + 3)⟩

/-- The state in which the walk of `fib_interpolate` stops via the overflow
`break`: `curr_km` has wrapped to `(F 92 + F 93) mod 2^64`. -/
def breakSt : WalkSt :=
  ⟨Nat.fib 92, Nat.fib 93, Nat.fib 93, 1293530146158671551⟩

/-- The three Binet values of `fib_golden_ratio`:
`(pow(phi, k) - pow(-phi, -k)) / sqrt(5)` with an `int` exponent `k`
(C `pow` with a negative base is defined exactly for integer exponents,
where it is the integer power). -/
noncomputable def binetF (k : ℤ) : ℝ :=
  (goldenRatio ^ k - (-goldenRatio) ^ (-k)) / Real.sqrt 5

/-- C truncation toward zero of a `double`, for the implicit float-to-int
conversion at the `basic_miles2km(miles)` call in the `DBL_EPSILON`
fallback branch of `fib_golden_ratio`. -/
noncomputable def ctruncR (x : ℝ) : ℤ := if 0 ≤ x then ⌊x⌋ else ⌈x⌉

/-- The index `k = (int)floor(log(miles * sqrt(5)) / log(phi))` computed by
`fib_golden_ratio`. -/
noncomputable def goldenIdx (m : ℝ) : ℤ :=
  ⌊Real.log (m * Real.sqrt 5) / Real.log goldenRatio⌋

/-- `float fib_golden_ratio(float miles)` from algorithms.c, embedded over
`ℝ` (idealised `double` arithmetic; `DBL_EPSILON = 2 ^ (-52)`). -/
noncomputable def fib_golden_ratio (m : ℝ) : ℝ :=
  if m < 1 / 100000 then 0
  else if binetF (goldenIdx m + 1) - binetF (goldenIdx m) < 1 / 2 ^ 52 then
    ((basic_miles2km (ctruncR m) : ℚ) : ℝ)
  else
    binetF (goldenIdx m + 1) + (m - binetF (goldenIdx m)) *
      ((binetF (goldenIdx m + 2) - binetF (goldenIdx m + 1)) /
        (binetF (goldenIdx m + 1) - binetF (goldenIdx m)))

/-- The common interpolation value both table methods compute on the bracket
`[F (j+5), F (j+6))`:
`F_k1 + (miles - F_k) * ((F_k2 - F_k1) / (F_k1 - F_k))` with `k = j + 5`. -/
def bracketVal (j : ℕ) (m : ℚ) : ℚ :=
  (Nat.fib (j + 6) : ℚ) +
    (m - (Nat.fib (j + 5) : ℚ)) * ((Nat.fib (j + 5) : ℚ) / (Nat.fib (j + 4) : ℚ))

/-! ### Basic facts about the embedded definitions -/

theorem ctrunc_eq_floor (q : ℚ) (h : 0 ≤ q) : ctrunc q = ⌊q⌋ := by
  simp [ctrunc, h]

theorem fib_agree : ∀ n ∈ Finset.range 94, fibonacci n = Nat.fib n := by decide

theorem fibonacci_eq_fib (n : ℕ) (h : n ≤ 93) : fibonacci n = Nat.fib n :=
  fib_agree n (Finset.mem_range.mpr (by omega))

theorem cacheEntry_agree : ∀ n ∈ Finset.range 94, cacheEntry n = Nat.fib n := by decide

theorem cacheEntry_eq_fib (n : ℕ) (h : n ≤ 93) : cacheEntry n = Nat.fib n :=
  cacheEntry_agree n (Finset.mem_range.mpr (by omega))

theorem cacheList_getD (i : ℕ) (h : i < 94) : cacheList.getD i 0 = cacheEntry i := by
  simp [cacheList, List.getD, List.getElem?_map, List.getElem?_range, h]

theorem cacheList_getD_fib (i : ℕ) (h : i ≤ 93) : cacheList.getD i 0 = Nat.fib i := by
  rw [cacheList_getD i (by omega), cacheEntry_eq_fib i h]

theorem cacheList_length : cacheList.length = 94 := by
  simp [cacheList]

/-- The initialisation recurrence of the cache is the Fibonacci recurrence in
`uint64_t` arithmetic, as in the C loop. -/
theorem cacheEntry_rec (n : ℕ) :
    cacheEntry (n + 2) = (cacheEntry n + cacheEntry (n + 1)) % u64 := by
  simp [cacheEntry, fibAux]

theorem fib93_lt_u64 : Nat.fib 93 < u64 := by decide

theorem fib_lt_u64 (n : ℕ) (h : n ≤ 93) : Nat.fib n < u64 :=
  lt_of_le_of_lt (Nat.fib_mono h) fib93_lt_u64

theorem u64sub_eq (a b : ℕ) (h1 : b ≤ a) (h2 : a < u64) : u64sub a b = a - b := by
  have hb : b % u64 = b := Nat.mod_eq_of_lt (lt_of_le_of_lt h1 h2)
  have hbu : b ≤ u64 := le_of_lt (lt_of_le_of_lt h1 h2)
  unfold u64sub
  rw [hb, show a + (u64 - b) = (a - b) + u64 by omega, Nat.add_mod_right,
    Nat.mod_eq_of_lt (by omega)]

theorem fib_cast_le (a b : ℕ) (h : a ≤ b) : (Nat.fib a : ℚ) ≤ (Nat.fib b : ℚ) :=
  Nat.cast_le.mpr (Nat.fib_mono h)

theorem five_le_fib_cast (j : ℕ) : (5 : ℚ) ≤ (Nat.fib (j + 5) : ℚ) := by
  have h : (5 : ℕ) ≤ Nat.fib (j + 5) := by
    calc (5 : ℕ) = Nat.fib 5 := by decide
    _ ≤ Nat.fib (j + 5) := Nat.fib_mono (by omega)
  exact_mod_cast h

/-! ### The bracket walk of `fib_interpolate` -/

theorem fibWalk_stop (m : ℚ) (fuel : ℕ) (s : WalkSt) (h : ¬ ((s.cm : ℚ) ≤ m)) :
    fibWalk m fuel s = s := by
  cases fuel with
  | zero => rfl
  | succ n => simp only [fibWalk, if_neg h]

theorem fibWalk_advance (m : ℚ) (fuel : ℕ) (s : WalkSt) (h : (s.cm : ℚ) ≤ m)
    (hnb : ¬ ((s.cm + s.ck) % u64 < s.ck ∨ s.ck < s.cm)) :
    fibWalk m (fuel + 1) s = fibWalk m fuel ⟨s.cm, s.ck, s.ck, (s.cm + s.ck) % u64⟩ := by
  simp only [fibWalk, if_pos h, if_neg hnb]

theorem fibWalk_break (m : ℚ) (fuel : ℕ) (s : WalkSt) (h : (s.cm : ℚ) ≤ m)
    (hb : (s.cm + s.ck) % u64 < s.ck ∨ s.ck < s.cm) :
    fibWalk m (fuel + 1) s = ⟨s.cm, s.ck, s.ck, (s.cm + s.ck) % u64⟩ := by
  simp only [fibWalk, if_pos h, if_pos hb]

theorem walk_exit (m : ℚ) (j fuel : ℕ) (h : m < (Nat.fib (j + 2) : ℚ)) :
    fibWalk m fuel (stateAt j) = stateAt j :=
  fibWalk_stop m fuel (stateAt j) (not_le.mpr h)

theorem walk_succ (m : ℚ) (j fuel : ℕ) (hj : j ≤ 89)
    (hm : (Nat.fib (j + 2) : ℚ) ≤ m) :
    fibWalk m (fuel + 1) (stateAt j) = fibWalk m fuel (stateAt (j + 1)) := by
  have e4 : Nat.fib (j + 2) + Nat.fib (j + 3) = Nat.fib (j + 4) :=
    (Nat.fib_add_two (n := j + 2)).symm
  have hmod : (Nat.fib (j + 2) + Nat.fib (j + 3)) % u64 = Nat.fib (j + 4) := by
    rw [e4]; exact Nat.mod_eq_of_lt (fib_lt_u64 _ (by omega))
  have hnb : ¬ (((stateAt j).cm + (stateAt j).ck) % u64 < (stateAt j).ck ∨
      (stateAt j).ck < (stateAt j).cm) := by
    show ¬ ((Nat.fib (j + 2) + Nat.fib (j + 3)) % u64 < Nat.fib (j + 3) ∨
      Nat.fib (j + 3) < Nat.fib (j + 2))
    rw [hmod]
    push_neg
    exact ⟨Nat.fib_mono (by omega), Nat.fib_mono (by omega)⟩
  rw [fibWalk_advance m fuel (stateAt j) hm hnb]
  show fibWalk m fuel ⟨Nat.fib (j + 2), Nat.fib (j + 3), Nat.fib (j + 3),
    (Nat.fib (j + 2) + Nat.fib (j + 3)) % u64⟩ = _
  rw [hmod]
  rfl

theorem walk_chain (m : ℚ) :
    ∀ d j fuel : ℕ, 1 ≤ j → j + d ≤ 90 → (Nat.fib (j + d + 1) : ℚ) ≤ m →
      fibWalk m (fuel + d) (stateAt j) = fibWalk m fuel (stateAt (j + d)) := by
  intro d
  induction d with
  | zero => intro j fuel _ _ _; rfl
  | succ d ih =>
    intro j fuel hj hjd hm
    have hstep : fibWalk m ((fuel + d) + 1) (stateAt j) = fibWalk m (fuel + d) (stateAt (j + 1)) := by
      refine walk_succ m j (fuel + d) (by omega) (le_trans (fib_cast_le _ _ (by omega)) hm)
    calc fibWalk m (fuel + (d + 1)) (stateAt j)
        = fibWalk m ((fuel + d) + 1) (stateAt j) := rfl
      _ = fibWalk m (fuel + d) (stateAt (j + 1)) := hstep
      _ = fibWalk m fuel (stateAt ((j + 1) + d)) := by
          refine ih (j + 1) fuel (by omega) (by omega) ?_
          have e : (j + 1) + d + 1 = j + (d + 1) + 1 := by omega
          rw [e]; exact hm
      _ = fibWalk m fuel (stateAt (j + (d + 1))) := by
          rw [show (j + 1) + d = j + (d + 1) by omega]

theorem walk_init_step (m : ℚ) (fuel : ℕ) (h : (1 : ℚ) ≤ m) :
    fibWalk m (fuel + 1) walkInit = fibWalk m fuel (stateAt 1) := by
  have h' : ((walkInit.cm : ℕ) : ℚ) ≤ m := by
    show ((1 : ℕ) : ℚ) ≤ m
    exact_mod_cast h
  have hnb : ¬ ((walkInit.cm + walkInit.ck) % u64 < walkInit.ck ∨
      walkInit.ck < walkInit.cm) := by decide
  rw [fibWalk_advance m fuel walkInit h' hnb]
  show fibWalk m fuel ⟨1, 2, 2, 3 % u64⟩ = fibWalk m fuel (stateAt 1)
  have e : (3 : ℕ) % u64 = 3 := Nat.mod_eq_of_lt (by decide)
  rw [e]
  show fibWalk m fuel ⟨1, 2, 2, 3⟩ = fibWalk m fuel (stateAt 1)
  rfl

theorem walk_bracket (m : ℚ) (j : ℕ) (hj : j ≤ 86)
    (h1 : (Nat.fib (j + 5) : ℚ) ≤ m) (h2 : m < (Nat.fib (j + 6) : ℚ)) :
    fibWalk m 200 walkInit = stateAt (j + 4) := by
  have hm1 : (1 : ℚ) ≤ m := le_trans (by linarith [five_le_fib_cast j]) h1
  rw [show (200 : ℕ) = 199 + 1 from rfl, walk_init_step m 199 hm1]
  rw [show (199 : ℕ) = (196 - j) + (j + 3) by omega]
  rw [walk_chain m (j + 3) 1 (196 - j) (by omega) (by omega)
    (by rw [show 1 + (j + 3) + 1 = j + 5 by omega]; exact h1)]
  rw [show 1 + (j + 3) = j + 4 by omega]
  exact walk_exit m (j + 4) (196 - j) (by rw [show j + 4 + 2 = j + 6 by omega]; exact h2)

theorem wrap_value : (Nat.fib 92 + Nat.fib 93) % u64 = 1293530146158671551 := by decide

theorem walk_break_step (m : ℚ) (fuel : ℕ) (h : (Nat.fib 92 : ℚ) ≤ m) :
    fibWalk m (fuel + 1) (stateAt 90) = breakSt := by
  have h' : (((stateAt 90).cm : ℕ) : ℚ) ≤ m := h
  have hb : ((stateAt 90).cm + (stateAt 90).ck) % u64 < (stateAt 90).ck ∨
      (stateAt 90).ck < (stateAt 90).cm := by
    left
    show (Nat.fib 92 + Nat.fib 93) % u64 < Nat.fib 93
    rw [wrap_value]; decide
  rw [fibWalk_break m fuel (stateAt 90) h' hb]
  show (⟨Nat.fib 92, Nat.fib 93, Nat.fib 93, (Nat.fib 92 + Nat.fib 93) % u64⟩ : WalkSt) = breakSt
  rw [wrap_value]
  rfl

theorem walk_overflow (m : ℚ) (h : (Nat.fib 92 : ℚ) ≤ m) :
    fibWalk m 200 walkInit = breakSt := by
  have hm1 : (1 : ℚ) ≤ m := by
    refine le_trans ?_ h
    have : (1 : ℕ) ≤ Nat.fib 92 := Nat.fib_pos.mpr (by omega)
    exact_mod_cast this
  rw [show (200 : ℕ) = 199 + 1 from rfl, walk_init_step m 199 hm1]
  rw [show (199 : ℕ) = 110 + 89 from rfl]
  rw [walk_chain m 89 1 110 (by omega) (by omega)
    (le_trans (fib_cast_le _ _ (by omega)) h)]
  rw [show (1 + 89 : ℕ) = 90 from rfl, show (110 : ℕ) = 109 + 1 from rfl]
  exact walk_break_step m 109 h

theorem fib_rec_idx (j a b c : ℕ) (ha : a + 2 = c) (hb : a + 1 = b) :
    Nat.fib (j + c) = Nat.fib (j + a) + Nat.fib (j + b) := by
  have h := Nat.fib_add_two (n := j + a)
  rwa [show j + a + 2 = j + c by omega, show j + a + 1 = j + b by omega] at h

/-- On a bracket `F (j+5) ≤ m < F (j+6)` the dynamic method interpolates with
the pair `(F (j+5), F (j+6))` mapped to `(F (j+6), F (j+7))`. -/
theorem interp_val (m : ℚ) (j : ℕ) (hj : j ≤ 86)
    (h1 : (Nat.fib (j + 5) : ℚ) ≤ m) (h2 : m < (Nat.fib (j + 6) : ℚ)) :
    fib_interpolate m = (Nat.fib (j + 6) : ℚ) +
      (m - (Nat.fib (j + 5) : ℚ)) * ((Nat.fib (j + 5) : ℚ) / (Nat.fib (j + 4) : ℚ)) := by
  have h5 : ¬ m < 5 := not_lt.mpr (le_trans (five_le_fib_cast j) h1)
  unfold fib_interpolate
  rw [if_neg h5, walk_bracket m j hj h1 h2]
  have e1 : (stateAt (j + 4)).pm = Nat.fib (j + 5) := rfl
  have e2 : (stateAt (j + 4)).pk = Nat.fib (j + 6) := rfl
  have e3 : (stateAt (j + 4)).cm = Nat.fib (j + 6) := rfl
  have e4 : (stateAt (j + 4)).ck = Nat.fib (j + 7) := rfl
  rw [e1, e2, e3, e4]
  have s1 : u64sub (Nat.fib (j + 7)) (Nat.fib (j + 6)) = Nat.fib (j + 5) := by
    rw [u64sub_eq _ _ (Nat.fib_mono (by omega)) (fib_lt_u64 _ (by omega))]
    have := fib_rec_idx j 5 6 7 (by omega) (by omega)
    omega
  have s2 : u64sub (Nat.fib (j + 6)) (Nat.fib (j + 5)) = Nat.fib (j + 4) := by
    rw [u64sub_eq _ _ (Nat.fib_mono (by omega)) (fib_lt_u64 _ (by omega))]
    have := fib_rec_idx j 4 5 6 (by omega) (by omega)
    omega
  rw [s1, s2]

/-- On inputs at or beyond `F 92` the walk stops via the overflow `break` and
`fib_interpolate` extrapolates from `(F 92, F 93)` with slope `F 92 / F 91`:
it does NOT delegate to `basic_miles2km`. -/
theorem interp_overflow_val (m : ℚ) (h : (Nat.fib 92 : ℚ) ≤ m) :
    fib_interpolate m = (Nat.fib 93 : ℚ) +
      (m - (Nat.fib 92 : ℚ)) * ((Nat.fib 92 : ℚ) / (Nat.fib 91 : ℚ)) := by
  have h5 : ¬ m < 5 := by
    refine not_lt.mpr (le_trans ?_ h)
    have : (5 : ℕ) ≤ Nat.fib 92 := by
      calc (5 : ℕ) = Nat.fib 5 := by decide
      _ ≤ Nat.fib 92 := Nat.fib_mono (by omega)
    exact_mod_cast this
  unfold fib_interpolate
  rw [if_neg h5, walk_overflow m h]
  have e1 : breakSt.pm = Nat.fib 92 := rfl
  have e2 : breakSt.pk = Nat.fib 93 := rfl
  have e3 : breakSt.cm = Nat.fib 93 := rfl
  have e4 : breakSt.ck = 1293530146158671551 := rfl
  rw [e1, e2, e3, e4]
  have s1 : u64sub 1293530146158671551 (Nat.fib 93) = Nat.fib 92 := by decide
  have s2 : u64sub (Nat.fib 93) (Nat.fib 92) = Nat.fib 91 := by decide
  rw [s1, s2]

/-! ### The table search of `fib_cache_convert` -/

theorem searchAux_stop (m : ℚ) (fuel i : ℕ)
    (h : ¬ (i < 92 ∧ ((cacheList.getD i 0 : ℕ) : ℚ) ≤ m)) :
    cacheSearchAuxIn cacheList m fuel i = i := by
  cases fuel with
  | zero => rfl
  | succ n => simp only [cacheSearchAuxIn, if_neg h]

theorem searchAux_step (m : ℚ) (fuel i : ℕ) (h1 : i < 92)
    (h2 : ((cacheList.getD i 0 : ℕ) : ℚ) ≤ m) :
    cacheSearchAuxIn cacheList m (fuel + 1) i = cacheSearchAuxIn cacheList m fuel (i + 1) := by
  simp only [cacheSearchAuxIn, if_pos (And.intro h1 h2)]

theorem searchAux_chain (m : ℚ) :
    ∀ d i fuel : ℕ, i + d ≤ 92 →
      (∀ t, i ≤ t → t < i + d → ((cacheList.getD t 0 : ℕ) : ℚ) ≤ m) →
      cacheSearchAuxIn cacheList m (fuel + d) i = cacheSearchAuxIn cacheList m fuel (i + d) := by
  intro d
  induction d with
  | zero => intro i fuel _ _; rfl
  | succ d ih =>
    intro i fuel hd hall
    calc cacheSearchAuxIn cacheList m (fuel + (d + 1)) i
        = cacheSearchAuxIn cacheList m ((fuel + d) + 1) i := rfl
      _ = cacheSearchAuxIn cacheList m (fuel + d) (i + 1) :=
          searchAux_step m (fuel + d) i (by omega) (hall i (by omega) (by omega))
      _ = cacheSearchAuxIn cacheList m fuel ((i + 1) + d) := by
          refine ih (i + 1) fuel (by omega) ?_
          intro t ht1 ht2
          exact hall t (by omega) (by omega)
      _ = cacheSearchAuxIn cacheList m fuel (i + (d + 1)) := by
          rw [show (i + 1) + d = i + (d + 1) by omega]

/-- On a bracket `F (j+5) ≤ m < F (j+6)` with `j ≤ 85` the search of
`fib_cache_convert` stops at index `j + 6`. -/
theorem search_bracket (m : ℚ) (j : ℕ) (hj : j ≤ 85)
    (h1 : (Nat.fib (j + 5) : ℚ) ≤ m) (h2 : m < (Nat.fib (j + 6) : ℚ)) :
    cacheSearch m = j + 6 := by
  unfold cacheSearch cacheSearchIn
  rw [show (200 : ℕ) = (196 - j) + (j + 4) by omega]
  have hall : ∀ t, 2 ≤ t → t < 2 + (j + 4) → ((cacheList.getD t 0 : ℕ) : ℚ) ≤ m := by
    intro t ht1 ht2
    rw [cacheList_getD_fib t (by omega)]
    exact le_trans (fib_cast_le t (j + 5) (by omega)) h1
  rw [searchAux_chain m (j + 4) 2 (196 - j) (by omega) hall]
  rw [show 2 + (j + 4) = j + 6 by omega]
  refine searchAux_stop m (196 - j) (j + 6) ?_
  rintro ⟨-, hle⟩
  rw [cacheList_getD_fib (j + 6) (by omega)] at hle
  exact absurd h2 (not_lt.mpr hle)

/-- For `m ≥ F 91` the search of `fib_cache_convert` runs to the cap
`MAX_CACHE - 2 = 92` and the function falls back to the exact converter. -/
theorem search_saturate (m : ℚ) (h : (Nat.fib 91 : ℚ) ≤ m) :
    cacheSearch m = 92 := by
  unfold cacheSearch cacheSearchIn
  rw [show (200 : ℕ) = 110 + 90 by omega]
  have hall : ∀ t, 2 ≤ t → t < 2 + 90 → ((cacheList.getD t 0 : ℕ) : ℚ) ≤ m := by
    intro t ht1 ht2
    rw [cacheList_getD_fib t (by omega)]
    exact le_trans (fib_cast_le t 91 (by omega)) h
  rw [searchAux_chain m 90 2 110 (by omega) hall]
  rw [show (2 + 90 : ℕ) = 92 from rfl]
  exact searchAux_stop m 110 92 (fun hc => absurd hc.1 (by omega))

theorem search_le (m : ℚ) : ∀ fuel i : ℕ, i ≤ 92 → cacheSearchAuxIn cacheList m fuel i ≤ 92 := by
  intro fuel
  induction fuel with
  | zero => intro i h; exact h
  | succ n ih =>
    intro i h
    by_cases hc : i < 92 ∧ ((cacheList.getD i 0 : ℕ) : ℚ) ≤ m
    · rw [searchAux_step m n i hc.1 hc.2]
      exact ih (i + 1) (by omega)
    · rw [searchAux_stop m (n + 1) i hc]
      exact h

theorem cacheSearch_le (m : ℚ) : cacheSearch m ≤ 92 :=
  search_le m 200 2 (by omega)

/-- On a bracket `F (j+5) ≤ m < F (j+6)` with `j ≤ 85` the cached method
interpolates with exactly the same three Fibonacci values as the dynamic
method. -/
theorem cache_val (m : ℚ) (j : ℕ) (hj : j ≤ 85)
    (h1 : (Nat.fib (j + 5) : ℚ) ≤ m) (h2 : m < (Nat.fib (j + 6) : ℚ)) :
    fib_cache_convert m = (Nat.fib (j + 6) : ℚ) +
      (m - (Nat.fib (j + 5) : ℚ)) * ((Nat.fib (j + 5) : ℚ) / (Nat.fib (j + 4) : ℚ)) := by
  have h5 : ¬ m < 5 := not_lt.mpr (le_trans (five_le_fib_cast j) h1)
  have hs : cacheSearch m = j + 6 := search_bracket m j hj h1 h2
  unfold fib_cache_convert cacheBody
  rw [if_neg h5]
  unfold cacheSearch at hs
  rw [hs, if_neg (by omega : ¬ 92 ≤ j + 6)]
  rw [show j + 6 - 1 = j + 5 by omega]
  rw [cacheList_getD_fib (j + 6) (by omega), cacheList_getD_fib (j + 5) (by omega),
    cacheList_getD_fib (j + 6 + 1) (by omega)]
  rw [show j + 6 + 1 = j + 7 by omega]
  have s1 : u64sub (Nat.fib (j + 7)) (Nat.fib (j + 6)) = Nat.fib (j + 5) := by
    rw [u64sub_eq _ _ (Nat.fib_mono (by omega)) (fib_lt_u64 _ (by omega))]
    have := fib_rec_idx j 5 6 7 (by omega) (by omega)
    omega
  have s2 : u64sub (Nat.fib (j + 6)) (Nat.fib (j + 5)) = Nat.fib (j + 4) := by
    rw [u64sub_eq _ _ (Nat.fib_mono (by omega)) (fib_lt_u64 _ (by omega))]
    have := fib_rec_idx j 4 5 6 (by omega) (by omega)
    omega
  rw [s1, s2]

/-- For `m ≥ F 91` the cached method delegates to the exact converter. -/
theorem cache_fallback (m : ℚ) (h : (Nat.fib 91 : ℚ) ≤ m) :
    fib_cache_convert m = basic_miles2km_f m := by
  have h5 : ¬ m < 5 := by
    refine not_lt.mpr (le_trans ?_ h)
    have : (5 : ℕ) ≤ Nat.fib 91 := by
      calc (5 : ℕ) = Nat.fib 5 := by decide
      _ ≤ Nat.fib 91 := Nat.fib_mono (by omega)
    exact_mod_cast this
  have hs : cacheSearch m = 92 := search_saturate m h
  unfold fib_cache_convert cacheBody
  rw [if_neg h5]
  unfold cacheSearch at hs
  rw [hs, if_pos (by omega : (92 : ℕ) ≤ 92)]

/-- Below the 5-mile threshold both table methods delegate to
`basic_miles2km` (with the same implicit truncation). -/
theorem low_range_interp (m : ℚ) (h : m < 5) :
    fib_interpolate m = basic_miles2km_f m := by
  unfold fib_interpolate
  rw [if_pos h]

theorem low_range_cache (m : ℚ) (h : m < 5) :
    fib_cache_convert m = basic_miles2km_f m := by
  unfold fib_cache_convert cacheBody
  rw [if_pos h]

/-- Every `m` with `5 ≤ m < F N` (for `6 ≤ N`) lies in a Fibonacci bracket
`[F (j+5), F (j+6))` with `j + 6 ≤ N`. -/
theorem exists_bracket (m : ℚ) (h5 : 5 ≤ m) :
    ∀ N : ℕ, 6 ≤ N → m < (Nat.fib N : ℚ) →
      ∃ j, j + 6 ≤ N ∧ (Nat.fib (j + 5) : ℚ) ≤ m ∧ m < (Nat.fib (j + 6) : ℚ) := by
  intro N
  induction N with
  | zero => omega
  | succ n ih =>
    intro h6 hm
    by_cases hn : m < (Nat.fib n : ℚ)
    · rcases Nat.lt_or_ge n 6 with hn6 | hn6
      · exfalso
        have hfn : (Nat.fib n : ℚ) ≤ 5 := by
          have : Nat.fib n ≤ 5 := by
            calc Nat.fib n ≤ Nat.fib 5 := Nat.fib_mono (by omega)
            _ = 5 := by decide
          exact_mod_cast this
        linarith
      · obtain ⟨j, hj1, hj2, hj3⟩ := ih hn6 hn
        exact ⟨j, by omega, hj2, hj3⟩
    · push_neg at hn
      refine ⟨n - 5, by omega, ?_, ?_⟩
      · rw [show n - 5 + 5 = n by omega]
        exact hn
      · rw [show n - 5 + 6 = n + 1 by omega]
        exact hm

/-- The dynamic and the cached interpolation agree exactly on every input
below `F 91 = 4660046610375530309`. -/
theorem cache_eq_interp (m : ℚ) (h : m < (Nat.fib 91 : ℚ)) :
    fib_cache_convert m = fib_interpolate m := by
  by_cases h5 : m < 5
  · rw [low_range_interp m h5, low_range_cache m h5]
  · push_neg at h5
    obtain ⟨j, hj1, hj2, hj3⟩ := exists_bracket m h5 91 (by omega) h
    rw [interp_val m j (by omega) hj2 hj3, cache_val m j (by omega) hj2 hj3]

theorem interp_eq_bracketVal (m : ℚ) (j : ℕ) (hj : j ≤ 86)
    (h1 : (Nat.fib (j + 5) : ℚ) ≤ m) (h2 : m < (Nat.fib (j + 6) : ℚ)) :
    fib_interpolate m = bracketVal j m :=
  interp_val m j hj h1 h2

theorem cache_eq_bracketVal (m : ℚ) (j : ℕ) (hj : j ≤ 85)
    (h1 : (Nat.fib (j + 5) : ℚ) ≤ m) (h2 : m < (Nat.fib (j + 6) : ℚ)) :
    fib_cache_convert m = bracketVal j m :=
  cache_val m j hj h1 h2

/-! ### Bounds and monotonicity of the interpolation value -/

theorem fib_cast_pos (n : ℕ) (h : 1 ≤ n) : (0 : ℚ) < (Nat.fib n : ℚ) := by
  have : 0 < Nat.fib n := Nat.fib_pos.mpr (by omega)
  exact_mod_cast this

theorem slope_nonneg (j : ℕ) : (0 : ℚ) ≤ (Nat.fib (j + 5) : ℚ) / (Nat.fib (j + 4) : ℚ) :=
  div_nonneg (by positivity) (by positivity)

theorem bracketVal_mono (j : ℕ) (m1 m2 : ℚ) (h : m1 ≤ m2) :
    bracketVal j m1 ≤ bracketVal j m2 := by
  unfold bracketVal
  have := mul_le_mul_of_nonneg_right (sub_le_sub_right h ((Nat.fib (j + 5) : ℚ)))
    (slope_nonneg j)
  linarith

theorem bracketVal_lower (j : ℕ) (m : ℚ) (h1 : (Nat.fib (j + 5) : ℚ) ≤ m) :
    (Nat.fib (j + 6) : ℚ) ≤ bracketVal j m := by
  unfold bracketVal
  have := mul_nonneg (sub_nonneg.mpr h1) (slope_nonneg j)
  linarith

theorem bracketVal_upper (j : ℕ) (m : ℚ) (h2 : m < (Nat.fib (j + 6) : ℚ)) :
    bracketVal j m ≤ (Nat.fib (j + 7) : ℚ) := by
  unfold bracketVal
  have hrec6 : (Nat.fib (j + 6) : ℚ) = (Nat.fib (j + 4) : ℚ) + (Nat.fib (j + 5) : ℚ) := by
    have := fib_rec_idx j 4 5 6 (by omega) (by omega)
    exact_mod_cast this
  have hrec7 : (Nat.fib (j + 7) : ℚ) = (Nat.fib (j + 5) : ℚ) + (Nat.fib (j + 6) : ℚ) := by
    have := fib_rec_idx j 5 6 7 (by omega) (by omega)
    exact_mod_cast this
  have h4pos : (0 : ℚ) < (Nat.fib (j + 4) : ℚ) := fib_cast_pos (j + 4) (by omega)
  have hstep : (m - (Nat.fib (j + 5) : ℚ)) * ((Nat.fib (j + 5) : ℚ) / (Nat.fib (j + 4) : ℚ)) ≤
      (Nat.fib (j + 4) : ℚ) * ((Nat.fib (j + 5) : ℚ) / (Nat.fib (j + 4) : ℚ)) := by
    refine mul_le_mul_of_nonneg_right ?_ (slope_nonneg j)
    linarith
  have hcancel : (Nat.fib (j + 4) : ℚ) * ((Nat.fib (j + 5) : ℚ) / (Nat.fib (j + 4) : ℚ)) =
      (Nat.fib (j + 5) : ℚ) := by
    rw [mul_comm]
    exact div_mul_cancel₀ _ (ne_of_gt h4pos)
  rw [hcancel] at hstep
  linarith

/-! ### The exact converter -/

theorem basic_f_eq_floor (m : ℚ) (h : 0 ≤ m) :
    basic_miles2km_f m = (⌊m⌋ : ℚ) * mileFactor := by
  unfold basic_miles2km_f basic_miles2km
  rw [ctrunc_eq_floor m h]

theorem mileFactor_pos : (0 : ℚ) < mileFactor := by
  unfold mileFactor
  norm_num

theorem basic_f_mono (m1 m2 : ℚ) (h0 : 0 ≤ m1) (h : m1 ≤ m2) :
    basic_miles2km_f m1 ≤ basic_miles2km_f m2 := by
  rw [basic_f_eq_floor m1 h0, basic_f_eq_floor m2 (le_trans h0 h)]
  refine mul_le_mul_of_nonneg_right ?_ (le_of_lt mileFactor_pos)
  exact_mod_cast Int.floor_le_floor h

theorem basic_f_low_bound (m : ℚ) (h0 : 0 ≤ m) (h : m < 5) :
    basic_miles2km_f m < 8 := by
  rw [basic_f_eq_floor m h0]
  have hfl : ⌊m⌋ ≤ 4 := by
    have : ⌊m⌋ < (5 : ℤ) := Int.floor_lt.mpr (by exact_mod_cast h)
    omega
  have : (⌊m⌋ : ℚ) ≤ 4 := by exact_mod_cast hfl
  have := mul_le_mul_of_nonneg_right this (le_of_lt mileFactor_pos)
  unfold mileFactor at *
  linarith

theorem fib91_val : Nat.fib 91 = 4660046610375530309 := by decide

theorem fib92_val : Nat.fib 92 = 7540113804746346429 := by decide

theorem fib93_val : Nat.fib 93 = 12200160415121876738 := by decide

theorem eight_le_fib_cast (j : ℕ) : (8 : ℚ) ≤ (Nat.fib (j + 6) : ℚ) := by
  have h : (8 : ℕ) ≤ Nat.fib (j + 6) := by
    calc (8 : ℕ) = Nat.fib 6 := by decide
    _ ≤ Nat.fib (j + 6) := Nat.fib_mono (by omega)
  exact_mod_cast h

/-- The full monotonicity statement for `fib_interpolate` on `[0, 93]`. -/
theorem interp_mono (m1 m2 : ℚ) (h0 : 0 ≤ m1) (h12 : m1 < m2) (h93 : m2 ≤ 93) :
    fib_interpolate m1 ≤ fib_interpolate m2 := by
  have h93f : m2 < (Nat.fib 91 : ℚ) := by
    rw [fib91_val]
    refine lt_of_le_of_lt h93 ?_
    norm_num
  by_cases hB : m2 < 5
  · rw [low_range_interp m1 (lt_trans h12 hB), low_range_interp m2 hB]
    exact basic_f_mono m1 m2 h0 (le_of_lt h12)
  · push_neg at hB
    obtain ⟨j2, hj2a, hj2b, hj2c⟩ := exists_bracket m2 hB 91 (by omega) h93f
    rw [interp_eq_bracketVal m2 j2 (by omega) hj2b hj2c]
    by_cases hA : m1 < 5
    · rw [low_range_interp m1 hA]
      have hlow : basic_miles2km_f m1 < 8 := basic_f_low_bound m1 h0 hA
      have := eight_le_fib_cast j2
      have := bracketVal_lower j2 m2 hj2b
      linarith
    · push_neg at hA
      obtain ⟨j1, hj1a, hj1b, hj1c⟩ :=
        exists_bracket m1 hA 91 (by omega) (lt_trans h12 h93f)
      rw [interp_eq_bracketVal m1 j1 (by omega) hj1b hj1c]
      rcases Nat.lt_or_ge j1 j2 with hlt | hge
      · have hu := bracketVal_upper j1 m1 hj1c
        have hl := bracketVal_lower j2 m2 hj2b
        have hmid : (Nat.fib (j1 + 7) : ℚ) ≤ (Nat.fib (j2 + 6) : ℚ) :=
          fib_cast_le _ _ (by omega)
        linarith
      · have hj12 : j1 = j2 := by
          rcases Nat.lt_or_ge j2 j1 with hlt2 | hge2
          · exfalso
            have : (Nat.fib (j2 + 6) : ℚ) ≤ (Nat.fib (j1 + 5) : ℚ) :=
              fib_cast_le _ _ (by omega)
            linarith
          · omega
        subst hj12
        exact bracketVal_mono j1 m1 m2 (le_of_lt h12)

/-- The full monotonicity statement for `fib_cache_convert` on `[0, 93]`. -/
theorem cache_mono (m1 m2 : ℚ) (h0 : 0 ≤ m1) (h12 : m1 < m2) (h93 : m2 ≤ 93) :
    fib_cache_convert m1 ≤ fib_cache_convert m2 := by
  have hf : (93 : ℚ) < (Nat.fib 91 : ℚ) := by
    rw [fib91_val]; norm_num
  rw [cache_eq_interp m1 (by linarith), cache_eq_interp m2 (by linarith)]
  exact interp_mono m1 m2 h0 h12 h93

/-! ### The Binet method `fib_golden_ratio` -/

theorem binetF_nat (n : ℕ) : binetF (n : ℤ) = (Nat.fib n : ℝ) := by
  unfold binetF
  have hneg : (-goldenRatio) ^ (-(n : ℤ)) = goldenConj ^ n := by
    rw [zpow_neg, ← inv_zpow, ← neg_inv, inv_gold, neg_neg, zpow_natCast]
  rw [hneg, zpow_natCast]
  exact (Real.coe_fib_eq n).symm

theorem goldenIdx_eq (m : ℝ) (k : ℕ) (hm0 : 0 < m)
    (h1 : goldenRatio ^ k ≤ m * Real.sqrt 5)
    (h2 : m * Real.sqrt 5 < goldenRatio ^ (k + 1)) :
    goldenIdx m = (k : ℤ) := by
  have hgold : (1 : ℝ) < goldenRatio := one_lt_gold
  have hlog : 0 < Real.log goldenRatio := Real.log_pos hgold
  have hms : 0 < m * Real.sqrt 5 := mul_pos hm0 (Real.sqrt_pos.mpr (by norm_num))
  have hpk : (0 : ℝ) < goldenRatio ^ k := pow_pos gold_pos k
  have hpk1 : (0 : ℝ) < goldenRatio ^ (k + 1) := pow_pos gold_pos (k + 1)
  unfold goldenIdx
  rw [Int.floor_eq_iff]
  constructor
  · rw [le_div_iff₀ hlog]
    have : Real.log (goldenRatio ^ k) ≤ Real.log (m * Real.sqrt 5) :=
      (Real.log_le_log_iff hpk hms).mpr h1
    rw [Real.log_pow] at this
    push_cast
    exact this
  · rw [div_lt_iff₀ hlog]
    have : Real.log (m * Real.sqrt 5) < Real.log (goldenRatio ^ (k + 1)) :=
      (Real.log_lt_log_iff hms hpk1).mpr h2
    rw [Real.log_pow] at this
    push_cast at this ⊢
    linarith

/-- On the index bracket `phi^(j+3) ≤ m·√5 < phi^(j+4)` the Binet method
computes `k = j+3` and interpolates with the exact Fibonacci values
`F (j+3), F (j+4), F (j+5)` (Binet's formula is exact at integer indices). -/
theorem golden_bracket_val (m : ℝ) (j : ℕ) (hm : ¬ m < 1 / 100000)
    (h1 : goldenRatio ^ (j + 3) ≤ m * Real.sqrt 5)
    (h2 : m * Real.sqrt 5 < goldenRatio ^ (j + 4)) :
    fib_golden_ratio m = (Nat.fib (j + 4) : ℝ) +
      (m - (Nat.fib (j + 3) : ℝ)) * ((Nat.fib (j + 3) : ℝ) / (Nat.fib (j + 2) : ℝ)) := by
  have hm0 : 0 < m := lt_of_lt_of_le (by norm_num) (not_lt.mp hm)
  have hidx : goldenIdx m = ((j + 3 : ℕ) : ℤ) :=
    goldenIdx_eq m (j + 3) hm0 h1 (by rw [show j + 3 + 1 = j + 4 by omega]; exact h2)
  have e1 : goldenIdx m + 1 = ((j + 4 : ℕ) : ℤ) := by rw [hidx]; push_cast; ring
  have e2 : goldenIdx m + 2 = ((j + 5 : ℕ) : ℤ) := by rw [hidx]; push_cast; ring
  have hrec43 : (Nat.fib (j + 4) : ℝ) - (Nat.fib (j + 3) : ℝ) = (Nat.fib (j + 2) : ℝ) := by
    have := fib_rec_idx j 2 3 4 (by omega) (by omega)
    have hc : (Nat.fib (j + 4) : ℝ) = (Nat.fib (j + 2) : ℝ) + (Nat.fib (j + 3) : ℝ) := by
      exact_mod_cast congrArg (Nat.cast : ℕ → ℝ) this
    linarith
  have hrec54 : (Nat.fib (j + 5) : ℝ) - (Nat.fib (j + 4) : ℝ) = (Nat.fib (j + 3) : ℝ) := by
    have := fib_rec_idx j 3 4 5 (by omega) (by omega)
    have hc : (Nat.fib (j + 5) : ℝ) = (Nat.fib (j + 3) : ℝ) + (Nat.fib (j + 4) : ℝ) := by
      exact_mod_cast congrArg (Nat.cast : ℕ → ℝ) this
    linarith
  have hone : (1 : ℝ) ≤ (Nat.fib (j + 2) : ℝ) := by
    have : 1 ≤ Nat.fib (j + 2) := Nat.fib_pos.mpr (by omega)
    exact_mod_cast this
  have hguard : ¬ (binetF (goldenIdx m + 1) - binetF (goldenIdx m) < 1 / 2 ^ 52) := by
    rw [e1, hidx, binetF_nat, binetF_nat, hrec43]
    push_neg
    calc (1 : ℝ) / 2 ^ 52 ≤ 1 := by norm_num
    _ ≤ (Nat.fib (j + 2) : ℝ) := hone
  unfold fib_golden_ratio
  rw [if_neg hm, if_neg hguard, e1, e2, hidx, binetF_nat, binetF_nat, binetF_nat,
    hrec43, hrec54]

theorem sqrt5_sq : Real.sqrt 5 ^ 2 = 5 := Real.sq_sqrt (by norm_num)

theorem sqrt5_lb : (223 / 100 : ℝ) < Real.sqrt 5 := by
  nlinarith [sqrt5_sq, Real.sqrt_nonneg 5]

theorem sqrt5_ub : Real.sqrt 5 < (224 / 100 : ℝ) := by
  nlinarith [sqrt5_sq, Real.sqrt_nonneg 5]

theorem gold_cube : goldenRatio ^ 3 = 2 * goldenRatio + 1 := by
  linear_combination (goldenRatio + 1) * gold_sq

theorem gold_fourth : goldenRatio ^ 4 = 3 * goldenRatio + 2 := by
  linear_combination (goldenRatio ^ 2 + goldenRatio + 2) * gold_sq

theorem gold_fifth : goldenRatio ^ 5 = 5 * goldenRatio + 3 := by
  linear_combination (goldenRatio ^ 3 + goldenRatio ^ 2 + 2 * goldenRatio + 3) * gold_sq

theorem goldenRatio_def : goldenRatio = (1 + Real.sqrt 5) / 2 := rfl

/-- `fib_golden_ratio 3 = 5`: the index bracket is `k = 3`, the Binet values
are `F3 = 2, F4 = 3, F5 = 5`, and `3 + (3 - 2) * (5 - 3) / (3 - 2) = 5`. -/
theorem golden_at_3 : fib_golden_ratio 3 = 5 := by
  have h := golden_bracket_val 3 0 (by norm_num) ?h1 ?h2
  case h1 =>
    rw [show (0 + 3 : ℕ) = 3 from rfl, gold_cube, goldenRatio_def]
    linarith [sqrt5_lb]
  case h2 =>
    rw [show (0 + 4 : ℕ) = 4 from rfl, gold_fourth, goldenRatio_def]
    linarith [sqrt5_ub]
  rw [h]
  norm_num [show Nat.fib 4 = 3 from by decide, show Nat.fib 3 = 2 from by decide,
    show Nat.fib 2 = 1 from by decide]

/-- `fib_golden_ratio 3.06 = 5.12` (bracket `k = 3`). -/
theorem golden_at_306 : fib_golden_ratio (306 / 100) = 512 / 100 := by
  have h := golden_bracket_val (306 / 100) 0 (by norm_num) ?h1 ?h2
  case h1 =>
    rw [show (0 + 3 : ℕ) = 3 from rfl, gold_cube, goldenRatio_def]
    linarith [sqrt5_lb]
  case h2 =>
    rw [show (0 + 4 : ℕ) = 4 from rfl, gold_fourth, goldenRatio_def]
    linarith [sqrt5_ub]
  rw [h]
  norm_num [show Nat.fib 4 = 3 from by decide, show Nat.fib 3 = 2 from by decide,
    show Nat.fib 2 = 1 from by decide]

/-- `fib_golden_ratio 3.07 = 5.105` (bracket `k = 4`). -/
theorem golden_at_307 : fib_golden_ratio (307 / 100) = 5105 / 1000 := by
  have h := golden_bracket_val (307 / 100) 1 (by norm_num) ?h1 ?h2
  case h1 =>
    rw [show (1 + 3 : ℕ) = 4 from rfl, gold_fourth, goldenRatio_def]
    linarith [sqrt5_lb]
  case h2 =>
    rw [show (1 + 4 : ℕ) = 5 from rfl, gold_fifth, goldenRatio_def]
    linarith [sqrt5_ub]
  rw [h]
  norm_num [show Nat.fib 5 = 5 from by decide, show Nat.fib 4 = 3 from by decide,
    show Nat.fib 3 = 2 from by decide]

/-! ### Remaining support lemmas -/

theorem fib90_val : Nat.fib 90 = 2880067194370816120 := by decide

theorem interpDenom_bracket (m : ℚ) (j : ℕ) (hj : j ≤ 86)
    (h1 : (Nat.fib (j + 5) : ℚ) ≤ m) (h2 : m < (Nat.fib (j + 6) : ℚ)) :
    interpDenom m = Nat.fib (j + 4) := by
  unfold interpDenom
  rw [walk_bracket m j hj h1 h2]
  show u64sub (Nat.fib (j + 6)) (Nat.fib (j + 5)) = Nat.fib (j + 4)
  rw [u64sub_eq _ _ (Nat.fib_mono (by omega)) (fib_lt_u64 _ (by omega))]
  have := fib_rec_idx j 4 5 6 (by omega) (by omega)
  omega

theorem interpDenom_overflow (m : ℚ) (h : (Nat.fib 92 : ℚ) ≤ m) :
    interpDenom m = Nat.fib 91 := by
  unfold interpDenom
  rw [walk_overflow m h]
  show u64sub (Nat.fib 93) (Nat.fib 92) = Nat.fib 91
  decide

theorem cacheDenom_bracket (m : ℚ) (j : ℕ) (hj : j ≤ 85)
    (h1 : (Nat.fib (j + 5) : ℚ) ≤ m) (h2 : m < (Nat.fib (j + 6) : ℚ)) :
    cacheDenom m = Nat.fib (j + 4) := by
  unfold cacheDenom
  rw [search_bracket m j hj h1 h2]
  rw [show j + 6 - 1 = j + 5 by omega]
  rw [cacheList_getD_fib (j + 6) (by omega), cacheList_getD_fib (j + 5) (by omega)]
  rw [u64sub_eq _ _ (Nat.fib_mono (by omega)) (fib_lt_u64 _ (by omega))]
  have := fib_rec_idx j 4 5 6 (by omega) (by omega)
  omega

theorem cacheDenom_saturate (m : ℚ) (h : (Nat.fib 91 : ℚ) ≤ m) :
    cacheDenom m = Nat.fib 90 := by
  unfold cacheDenom
  rw [search_saturate m h]
  rw [show (92 : ℕ) - 1 = 91 from rfl]
  rw [cacheList_getD_fib 92 (by omega), cacheList_getD_fib 91 (by omega)]
  decide

theorem three_le_fib (j : ℕ) : 3 ≤ Nat.fib (j + 4) := by
  calc (3 : ℕ) = Nat.fib 4 := by decide
  _ ≤ Nat.fib (j + 4) := Nat.fib_mono (by omega)

/-! ### The claims -/

/-- Claim C1 (code bug): the spec demands `convert_exact(miles: real) =
miles * 1.609344` for every non-negative real input, but `basic_miles2km`
takes a C `int`, so every fractional caller argument is silently truncated:
at miles = 2.5 the code produces `2 * 1.609344 = 3.218688` km instead of
`2.5 * 1.609344 = 4.02336` km. -/
theorem C1_truncation_bug :
    basic_miles2km_f (5 / 2) = 3218688 / 1000000 ∧
    (5 / 2 : ℚ) * mileFactor = 4023360 / 1000000 ∧
    basic_miles2km_f (5 / 2) ≠ (5 / 2 : ℚ) * mileFactor := by
  have hfl : basic_miles2km_f (5 / 2) = (⌊(5 / 2 : ℚ)⌋ : ℚ) * mileFactor :=
    basic_f_eq_floor (5 / 2) (by norm_num)
  have h2 : ⌊(5 / 2 : ℚ)⌋ = 2 := by
    rw [Int.floor_eq_iff]
    norm_num
  rw [hfl, h2]
  unfold mileFactor
  norm_num

/-- Claim C2 (amended): for every `0 ≤ m < 5` the two table-based methods
`fib_interpolate` and `fib_cache_convert` return exactly the value of
`basic_miles2km(m)`; the Binet method `fib_golden_ratio` has no such
low-range fallback (see the counterexample at miles = 3). -/
theorem C2_low_range_fallback (m : ℚ) (_h0 : 0 ≤ m) (h : m < 5) :
    fib_interpolate m = basic_miles2km_f m ∧
    fib_cache_convert m = basic_miles2km_f m :=
  ⟨low_range_interp m h, low_range_cache m h⟩

theorem C2_witness :
    (0 : ℚ) ≤ 5 / 2 ∧ (5 / 2 : ℚ) < 5 ∧
    fib_interpolate (5 / 2) = basic_miles2km_f (5 / 2) ∧
    fib_cache_convert (5 / 2) = basic_miles2km_f (5 / 2) :=
  ⟨by norm_num, by norm_num,
    (C2_low_range_fallback (5 / 2) (by norm_num) (by norm_num)).1,
    (C2_low_range_fallback (5 / 2) (by norm_num) (by norm_num)).2⟩

/-- Claim C2 counterexample: miles = 3 is below 5, yet `fib_golden_ratio`
returns 5, which is not `basic_miles2km(3) = 4.828032`: the Binet method
does not bypass interpolation below the 5-mile threshold. -/
theorem C2_counterexample :
    fib_golden_ratio 3 = 5 ∧ basic_miles2km_f 3 = 4828032 / 1000000 ∧
    fib_golden_ratio 3 ≠ ((basic_miles2km_f 3 : ℚ) : ℝ) := by
  have hb : basic_miles2km_f 3 = 4828032 / 1000000 := by
    have hfl : basic_miles2km_f 3 = (⌊(3 : ℚ)⌋ : ℚ) * mileFactor :=
      basic_f_eq_floor 3 (by norm_num)
    have h3 : ⌊(3 : ℚ)⌋ = 3 := by
      rw [Int.floor_eq_iff]
      norm_num
    rw [hfl, h3]
    unfold mileFactor
    norm_num
  refine ⟨golden_at_3, hb, ?_⟩
  rw [golden_at_3, hb]
  push_cast
  norm_num

/-- Claim C3 (amended): the dynamic method `fib_interpolate` and the cached
method `fib_cache_convert` return exactly identical values for every input
below `F 91 = 4660046610375530309` (hence at 6, 10, 21, 50, 90); at and
beyond `F 91` they diverge by far more than 1e-6 relative (see the
counterexample). -/
theorem C3_interpolation_agreement (m : ℚ) (h : m < 4660046610375530309) :
    fib_interpolate m = fib_cache_convert m := by
  refine (cache_eq_interp m ?_).symm
  rw [fib91_val]
  exact_mod_cast h

theorem C3_witness :
    (10 : ℚ) < 4660046610375530309 ∧ fib_interpolate 10 = fib_cache_convert 10 :=
  ⟨by norm_num, C3_interpolation_agreement 10 (by norm_num)⟩

/-- Claim C3 counterexample: at miles = 5e18 (between F91 and F92) the cached
method has fallen back to the exact formula while the dynamic method still
interpolates; the two results differ by more than a 1e-6 relative margin. -/
theorem C3_counterexample :
    fib_cache_convert 5000000000000000000 ≠ fib_interpolate 5000000000000000000 ∧
    fib_cache_convert 5000000000000000000 +
        fib_cache_convert 5000000000000000000 / 1000000 <
      fib_interpolate 5000000000000000000 := by
  have hcache : fib_cache_convert 5000000000000000000 =
      basic_miles2km_f 5000000000000000000 := by
    refine cache_fallback _ ?_
    rw [fib91_val]
    norm_num
  have hb : basic_miles2km_f 5000000000000000000 = 5000000000000000000 * mileFactor := by
    rw [basic_f_eq_floor _ (by norm_num)]
    norm_num
  have hinterp : fib_interpolate 5000000000000000000 = bracketVal 86 5000000000000000000 := by
    refine interp_eq_bracketVal _ 86 (by omega) ?_ ?_
    · rw [show (86 + 5 : ℕ) = 91 from rfl, fib91_val]
      norm_num
    · rw [show (86 + 6 : ℕ) = 92 from rfl, fib92_val]
      norm_num
  have hbv : bracketVal 86 5000000000000000000 =
      (7540113804746346429 : ℚ) + (5000000000000000000 - 4660046610375530309) *
        ((4660046610375530309 : ℚ) / 2880067194370816120) := by
    unfold bracketVal
    rw [show (86 + 6 : ℕ) = 92 from rfl, show (86 + 5 : ℕ) = 91 from rfl,
      show (86 + 4 : ℕ) = 90 from rfl, fib90_val, fib91_val, fib92_val]
    norm_num
  rw [hcache, hb, hinterp, hbv]
  unfold mileFactor
  norm_num

/-- Claim C4 (amended): when the bracket walk exhausts the table, only
`fib_cache_convert` delegates to the exact converter (it does so for every
`m ≥ F 91`); `fib_interpolate` never delegates: at the overflow boundary
(`m ≥ F 92`) it breaks out of the walk and extrapolates from the last pair
`(F 92, F 93)` with slope `F 92 / F 91`. -/
theorem C4_table_exhaustion (m : ℚ) :
    ((Nat.fib 91 : ℚ) ≤ m → fib_cache_convert m = basic_miles2km_f m) ∧
    ((Nat.fib 92 : ℚ) ≤ m → fib_interpolate m =
      (Nat.fib 93 : ℚ) + (m - (Nat.fib 92 : ℚ)) * ((Nat.fib 92 : ℚ) / (Nat.fib 91 : ℚ))) :=
  ⟨cache_fallback m, interp_overflow_val m⟩

theorem C4_witness :
    fib_cache_convert 20000000000000000000 = basic_miles2km_f 20000000000000000000 ∧
    fib_interpolate 20000000000000000000 =
      (Nat.fib 93 : ℚ) + ((20000000000000000000 : ℚ) - (Nat.fib 92 : ℚ)) *
        ((Nat.fib 92 : ℚ) / (Nat.fib 91 : ℚ)) :=
  ⟨(C4_table_exhaustion 20000000000000000000).1
      (by rw [fib91_val]; norm_num),
    (C4_table_exhaustion 20000000000000000000).2
      (by rw [fib92_val]; norm_num)⟩

/-- Claim C4 counterexample: at miles = 2^64 (beyond F93, where the walk
exhausts via the overflow break) `fib_interpolate` does not return
`basic_miles2km(miles)`: it returns the extrapolation
`F93 + (2^64 - F92) * F92 / F91 ≈ 2.98e19`, not `2^64 * 1.609344 ≈ 2.97e19`. -/
theorem C4_counterexample :
    fib_interpolate 18446744073709551616 ≠ basic_miles2km_f 18446744073709551616 := by
  have hval := interp_overflow_val 18446744073709551616 (by rw [fib92_val]; norm_num)
  rw [hval, fib91_val, fib92_val, fib93_val]
  have hb : basic_miles2km_f 18446744073709551616 = 18446744073709551616 * mileFactor := by
    rw [basic_f_eq_floor _ (by norm_num)]
    norm_num
  rw [hb]
  unfold mileFactor
  norm_num

/-- Claim C5 (amended): on `[0, 93]` the exact converter and the two
table-based methods are non-decreasing; the Binet method is not monotone
(see the counterexample at 3.06 < 3.07). -/
theorem C5_monotone (m1 m2 : ℚ) (h0 : 0 ≤ m1) (h12 : m1 < m2) (h93 : m2 ≤ 93) :
    basic_miles2km_f m1 ≤ basic_miles2km_f m2 ∧
    fib_interpolate m1 ≤ fib_interpolate m2 ∧
    fib_cache_convert m1 ≤ fib_cache_convert m2 :=
  ⟨basic_f_mono m1 m2 h0 (le_of_lt h12), interp_mono m1 m2 h0 h12 h93,
    cache_mono m1 m2 h0 h12 h93⟩

theorem C5_witness :
    (0 : ℚ) ≤ 6 ∧ (6 : ℚ) < 7 ∧ (7 : ℚ) ≤ 93 ∧
    basic_miles2km_f 6 ≤ basic_miles2km_f 7 ∧
    fib_interpolate 6 ≤ fib_interpolate 7 ∧
    fib_cache_convert 6 ≤ fib_cache_convert 7 :=
  ⟨by norm_num, by norm_num, by norm_num,
    (C5_monotone 6 7 (by norm_num) (by norm_num) (by norm_num)).1,
    (C5_monotone 6 7 (by norm_num) (by norm_num) (by norm_num)).2.1,
    (C5_monotone 6 7 (by norm_num) (by norm_num) (by norm_num)).2.2⟩

/-- Claim C5 counterexample: `fib_golden_ratio` is not non-decreasing on
`[0, 93]`: at the index-bracket boundary between 3.06 and 3.07 its value
drops from 5.12 to 5.105. -/
theorem C5_counterexample :
    (0 : ℝ) ≤ 306 / 100 ∧ (306 / 100 : ℝ) < 307 / 100 ∧ (307 / 100 : ℝ) ≤ 93 ∧
    fib_golden_ratio (307 / 100) < fib_golden_ratio (306 / 100) := by
  refine ⟨by norm_num, by norm_num, by norm_num, ?_⟩
  rw [golden_at_306, golden_at_307]
  norm_num

/-- Claim C6: `fibonacci` satisfies the Fibonacci recurrence on `2 ≤ n ≤ 93`
together with the base cases `fibonacci 0 = 0` and `fibonacci 1 = 1`. -/
theorem C6_fib_recurrence :
    (∀ n : ℤ, 2 ≤ n → n ≤ 93 → fibonacci n = fibonacci (n - 1) + fibonacci (n - 2)) ∧
    fibonacci 0 = 0 ∧ fibonacci 1 = 1 := by
  refine ⟨?_, by decide, by decide⟩
  intro n h2 h93
  obtain ⟨k, rfl⟩ : ∃ k : ℕ, n = (k : ℤ) + 2 := ⟨(n - 2).toNat, by omega⟩
  have e1 : ((k : ℤ) + 2) = ((k + 2 : ℕ) : ℤ) := by push_cast; ring
  have e2 : ((k + 2 : ℕ) : ℤ) - 1 = ((k + 1 : ℕ) : ℤ) := by push_cast; ring
  have e3 : ((k + 2 : ℕ) : ℤ) - 2 = ((k : ℕ) : ℤ) := by push_cast; ring
  rw [e1, e2, e3, fibonacci_eq_fib (k + 2) (by omega), fibonacci_eq_fib (k + 1) (by omega),
    fibonacci_eq_fib k (by omega)]
  have := Nat.fib_add_two (n := k)
  omega

theorem C6_witness :
    (2 : ℤ) ≤ 10 ∧ (10 : ℤ) ≤ 93 ∧ fibonacci 10 = fibonacci 9 + fibonacci 8 := by
  refine ⟨by norm_num, by norm_num, ?_⟩
  have h := C6_fib_recurrence.1 10 (by norm_num) (by norm_num)
  norm_num at h
  exact h

/-- Claim C7: `fibonacci 93` is exactly 12200160415121876738 and no value up
to index 93 wraps (each equals the unbounded Fibonacci number); the static
cache of `fib_cache_convert` holds exactly the 94 indices 0..93 and the
search index is capped so that the highest entry ever read is index 93. -/
theorem C7_overflow_boundary :
    fibonacci 93 = 12200160415121876738 ∧
    (∀ n : ℕ, n ≤ 93 → fibonacci (n : ℤ) = Nat.fib n) ∧
    cacheList.length = 94 ∧
    (∀ m : ℚ, cacheSearch m + 1 ≤ 93) := by
  refine ⟨by decide, fibonacci_eq_fib, cacheList_length, ?_⟩
  intro m
  have := cacheSearch_le m
  omega

theorem C7_witness :
    fibonacci (93 : ℤ) = Nat.fib 93 ∧ cacheSearch 6 + 1 ≤ 93 :=
  ⟨C7_overflow_boundary.2.1 93 (by norm_num), C7_overflow_boundary.2.2.2 6⟩

/-- Claim C8: for every input below the 1e-5 threshold `fib_golden_ratio`
returns 0 directly, guarding the logarithm. -/
theorem C8_golden_guard (m : ℝ) (h : m < 1 / 100000) : fib_golden_ratio m = 0 := by
  unfold fib_golden_ratio
  rw [if_pos h]

theorem C8_witness :
    (1 / 1000000 : ℝ) < 1 / 100000 ∧ fib_golden_ratio (1 / 1000000) = 0 :=
  ⟨by norm_num, C8_golden_guard (1 / 1000000) (by norm_num)⟩

/-- Claim C9: for every `m ≥ 5` the divisor used by the interpolation
division of `fib_interpolate` and the one used by `fib_cache_convert` are
at least 3 (hence never zero), although neither carries an explicit guard. -/
theorem C9_denominators (m : ℚ) (h : 5 ≤ m) :
    3 ≤ interpDenom m ∧ 3 ≤ cacheDenom m := by
  constructor
  · rcases lt_or_ge m ((Nat.fib 92 : ℕ) : ℚ) with hlt | hge
    · obtain ⟨j, hj1, hj2, hj3⟩ := exists_bracket m h 92 (by omega) hlt
      rw [interpDenom_bracket m j (by omega) hj2 hj3]
      exact three_le_fib j
    · rw [interpDenom_overflow m hge, fib91_val]
      norm_num
  · rcases lt_or_ge m ((Nat.fib 91 : ℕ) : ℚ) with hlt | hge
    · obtain ⟨j, hj1, hj2, hj3⟩ := exists_bracket m h 91 (by omega) hlt
      rw [cacheDenom_bracket m j (by omega) hj2 hj3]
      exact three_le_fib j
    · rw [cacheDenom_saturate m hge, fib90_val]
      norm_num

theorem C9_witness :
    (5 : ℚ) ≤ 6 ∧ 3 ≤ interpDenom 6 ∧ 3 ≤ cacheDenom 6 :=
  ⟨by norm_num, (C9_denominators 6 (by norm_num)).1, (C9_denominators 6 (by norm_num)).2⟩

/-- Claim C10: `fib_cache_convert` is deterministic across invocations: in
every call sequence starting from the uninitialised static state, each call
returns the pure value `fib_cache_convert m` and leaves the initialised
cache unchanged. -/
theorem C10_cache_deterministic (prior : List ℚ) (m : ℚ) :
    (fib_cache_call (runCalls cacheSt0 prior) m).1 = fib_cache_convert m ∧
    (fib_cache_call (runCalls cacheSt0 prior) m).2 = ⟨true, cacheList⟩ := by
  have run_inited : ∀ ms : List ℚ, runCalls ⟨true, cacheList⟩ ms = ⟨true, cacheList⟩ := by
    intro ms
    induction ms with
    | nil => rfl
    | cons a l ih =>
      show runCalls (fib_cache_call ⟨true, cacheList⟩ a).2 l = _
      rw [show (fib_cache_call ⟨true, cacheList⟩ a).2 = ⟨true, cacheList⟩ from rfl]
      exact ih
  have hreach : runCalls cacheSt0 prior = cacheSt0 ∨
      runCalls cacheSt0 prior = ⟨true, cacheList⟩ := by
    cases prior with
    | nil => exact Or.inl rfl
    | cons a l =>
      right
      show runCalls (fib_cache_call cacheSt0 a).2 l = _
      rw [show (fib_cache_call cacheSt0 a).2 = ⟨true, cacheList⟩ from rfl]
      exact run_inited l
  rcases hreach with hr | hr <;> rw [hr] <;> exact ⟨rfl, rfl⟩

end FibMiles
